import Mathlib

/-!
Verification of `src/examples/fps.rs`: a first-person camera over a fixed
instanced obstacle grid.  `f32` values are modelled as real numbers with
exact arithmetic; Rust's `%` on floats is the remainder of truncated
division; the `glam` dependency's vector and matrix operations are modelled
from that library's documented semantics.
-/

/-- Rust's `f32::to_radians`: `self * (PI / 180)`. -/
noncomputable def toRadians (deg : ℝ) : ℝ := deg * (Real.pi / 180)

/-- Rounding a real toward zero, the quotient underlying Rust's float `%`. -/
noncomputable def truncZ (x : ℝ) : ℤ := if 0 ≤ x then ⌊x⌋ else ⌈x⌉

/-- Rust's `%` on finite floats: `a - b * trunc(a / b)`, the remainder of
truncated division (its sign follows the dividend `a`). -/
noncomputable def rustRem (a b : ℝ) : ℝ := a - b * truncZ (a / b)

/-- The camera of `fps.rs`: pitch and yaw, both stored in degrees.
`#[derive(Default)]` starts both at zero. -/
structure Cam where
  pitch_deg : ℝ
  yaw_deg : ℝ

/-- `Cam::default()`: both angles zero. -/
def Cam.default : Cam := ⟨0, 0⟩

/-- A point in 3-space, modelling `glam::Vec3`. -/
abbrev V3 := ℝ × ℝ × ℝ

/-- `glam::Vec3::dot`. -/
def dot3 (a b : V3) : ℝ := a.1 * b.1 + a.2.1 * b.2.1 + a.2.2 * b.2.2

/-- `glam::Vec3::length`: `sqrt(dot(self, self))`. -/
noncomputable def length3 (v : V3) : ℝ := Real.sqrt (dot3 v v)

/-- `glam::Vec3::cross`. -/
def cross3 (a b : V3) : V3 :=
  (a.2.1 * b.2.2 - a.2.2 * b.2.1,
   a.2.2 * b.1 - a.1 * b.2.2,
   a.1 * b.2.1 - a.2.1 * b.1)

/-- `glam::Vec3::normalize`: division by the length. -/
noncomputable def normalize3 (v : V3) : V3 :=
  (v.1 / length3 v, v.2.1 / length3 v, v.2.2 / length3 v)

/-- `Cam::facing`: converts both angles to radians and returns
`(sin(yaw)*cos(pitch), sin(pitch), cos(yaw)*cos(pitch))`. -/
noncomputable def Cam.facing (c : Cam) : V3 :=
  let pitch := toRadians c.pitch_deg
  let yaw := toRadians c.yaw_deg
  (Real.sin yaw * Real.cos pitch, Real.sin pitch,
   Real.cos yaw * Real.cos pitch)

/-- `Cam::turn`: `pitch_deg = (pitch_deg + pitch_delta_deg).max(-89).min(89)`;
`yaw_deg = (yaw_deg + yaw_delta_deg) % 360`. -/
noncomputable def Cam.turn (c : Cam) (pitch_delta_deg yaw_delta_deg : ℝ) : Cam :=
  { pitch_deg := min (max (c.pitch_deg + pitch_delta_deg) (-89)) 89,
    yaw_deg := rustRem (c.yaw_deg + yaw_delta_deg) 360 }

/-- The camera states reachable from the default camera by `turn` calls. -/
inductive Cam.Reachable : Cam → Prop where
  | init : Cam.Reachable Cam.default
  | turn (c : Cam) (p y : ℝ) : Cam.Reachable c → Cam.Reachable (c.turn p y)

/- ### Bounds of the truncated remainder -/

lemma rustRem_bounds (a : ℝ) {b : ℝ} (hb : 0 < b) :
    -b < rustRem a b ∧ rustRem a b < b := by
  have hb0 : b ≠ 0 := ne_of_gt hb
  have ha : a = b * (a / b) := (mul_div_cancel₀ a hb0).symm
  unfold rustRem truncZ
  split_ifs with h
  · have hval : a - b * (⌊a / b⌋ : ℤ) = b * Int.fract (a / b) := by
      rw [Int.fract]; nlinarith [ha]
    rw [hval]
    have h0 : 0 ≤ b * Int.fract (a / b) :=
      mul_nonneg hb.le (Int.fract_nonneg _)
    have h1 : b * Int.fract (a / b) < b * 1 :=
      mul_lt_mul_of_pos_left (Int.fract_lt_one _) hb
    constructor <;> nlinarith
  · have hceil₁ : a / b ≤ (⌈a / b⌉ : ℤ) := Int.le_ceil _
    have hceil₂ : ((⌈a / b⌉ : ℤ) : ℝ) < a / b + 1 := Int.ceil_lt_add_one _
    have hval : a - b * (⌈a / b⌉ : ℤ) = b * (a / b - (⌈a / b⌉ : ℤ)) := by
      nlinarith [ha]
    rw [hval]
    have h0 : b * (a / b - (⌈a / b⌉ : ℤ)) ≤ b * 0 :=
      mul_le_mul_of_nonneg_left (by linarith) hb.le
    have h1 : b * (-1) < b * (a / b - (⌈a / b⌉ : ℤ)) :=
      mul_lt_mul_of_pos_left (by linarith) hb
    constructor <;> nlinarith

/-- `rustRem a b` differs from `a` by an integer multiple of `b`. -/
lemma rustRem_eq_sub_int_mul (a b : ℝ) :
    rustRem a b = a - b * (truncZ (a / b) : ℤ) := rfl

/- ### Claim theorems C2 and C9 -/

/-- Claim C2: `turn(pitch_delta_deg, yaw_delta_deg)` sets `pitch_deg` to the
clamp of `pitch_deg + pitch_delta_deg` into `[-89, 89]` and sets `yaw_deg`
to `(yaw_deg + yaw_delta_deg) % 360` (Rust's truncated-division remainder,
the spec's "mod 360", may be negative); it always succeeds and the whole
resulting camera is determined by these two fields, so nothing else is
mutated. -/
theorem cam_turn_spec : ∀ (c : Cam) (pd yd : ℝ),
    c.turn pd yd =
      { pitch_deg := min (max (c.pitch_deg + pd) (-89)) 89,
        yaw_deg := rustRem (c.yaw_deg + yd) 360 } :=
  fun _ _ _ => rfl

/-- Claim C9: after every `turn` call, from any prior camera state, the
stored `yaw_deg` lies strictly within `(-360, 360)`: the truncated remainder
bounds its magnitude below 360 even though the value can be negative. -/
theorem turn_yaw_bounds : ∀ (c : Cam) (pd yd : ℝ),
    -360 < (c.turn pd yd).yaw_deg ∧ (c.turn pd yd).yaw_deg < 360 := by
  intro c pd yd
  have h := rustRem_bounds (c.yaw_deg + yd) (b := 360) (by norm_num)
  exact ⟨h.1, h.2⟩

/- ### The pitch invariant -/

lemma turn_pitch_mem (c : Cam) (pd yd : ℝ) :
    -89 ≤ (c.turn pd yd).pitch_deg ∧ (c.turn pd yd).pitch_deg ≤ 89 := by
  refine ⟨le_min ?_ (by norm_num), min_le_right _ _⟩
  exact le_max_right _ _

lemma reachable_pitch (c : Cam) (h : c.Reachable) :
    -89 ≤ c.pitch_deg ∧ c.pitch_deg ≤ 89 := by
  induction h with
  | init => exact ⟨by norm_num [Cam.default], by norm_num [Cam.default]⟩
  | turn c p y _ _ => exact turn_pitch_mem c p y

/-- Claim C3: starting from the initial camera, `pitch_deg` lies within
`[-89, 89]` in every reachable camera state, hence after every `turn` call
of every sequence of calls. -/
theorem reachable_pitch_invariant : ∀ c : Cam, c.Reachable →
    -89 ≤ c.pitch_deg ∧ c.pitch_deg ≤ 89 :=
  fun c h => reachable_pitch c h

/-- Witness for C3: the initial camera is reachable and its pitch obeys the
bounds. -/
theorem reachable_pitch_invariant_witness :
    -89 ≤ Cam.default.pitch_deg ∧ Cam.default.pitch_deg ≤ 89 :=
  reachable_pitch_invariant Cam.default Cam.Reachable.init

/- ### The facing vector -/

/-- Claim C4: `facing()` is exactly the spherical direction
`(sin(yaw)*cos(pitch), sin(pitch), cos(yaw)*cos(pitch))` with both angles
converted to radians; it is a total function of the camera state alone. -/
theorem cam_facing_spec : ∀ c : Cam,
    c.facing = (Real.sin (toRadians c.yaw_deg) * Real.cos (toRadians c.pitch_deg),
                Real.sin (toRadians c.pitch_deg),
                Real.cos (toRadians c.yaw_deg) * Real.cos (toRadians c.pitch_deg)) :=
  fun _ => rfl

lemma length3_facing (c : Cam) : length3 c.facing = 1 := by
  have hdot : dot3 c.facing c.facing = 1 := by
    simp only [Cam.facing, dot3]
    nlinarith [Real.sin_sq_add_cos_sq (toRadians c.pitch_deg),
      Real.sin_sq_add_cos_sq (toRadians c.yaw_deg)]
  rw [length3, hdot, Real.sqrt_one]

/-- Claim C5: in every reachable camera state the vector returned by
`facing()` has length exactly 1 (in the exact-arithmetic model, so a
fortiori within floating-point tolerance). -/
theorem reachable_facing_length_one : ∀ c : Cam, c.Reachable →
    length3 c.facing = 1 :=
  fun c _ => length3_facing c

/-- Witness for C5: the initial camera is reachable and its facing vector
has length 1. -/
theorem reachable_facing_length_one_witness : length3 Cam.default.facing = 1 :=
  reachable_facing_length_one Cam.default Cam.Reachable.init

/- ### Full-turn yaw wrap leaves facing unchanged -/

lemma toRadians_rustRem_add_360 (y : ℝ) :
    ∃ n : ℤ, toRadians (rustRem (y + 360) 360) = toRadians y + n * (2 * Real.pi) := by
  refine ⟨1 - truncZ ((y + 360) / 360), ?_⟩
  rw [rustRem_eq_sub_int_mul]
  unfold toRadians
  push_cast
  ring

lemma sin_toRadians_rustRem (y : ℝ) :
    Real.sin (toRadians (rustRem (y + 360) 360)) = Real.sin (toRadians y) := by
  obtain ⟨n, hn⟩ := toRadians_rustRem_add_360 y
  rw [hn, Real.sin_add_int_mul_two_pi]

lemma cos_toRadians_rustRem (y : ℝ) :
    Real.cos (toRadians (rustRem (y + 360) 360)) = Real.cos (toRadians y) := by
  obtain ⟨n, hn⟩ := toRadians_rustRem_add_360 y
  rw [hn, Real.cos_add_int_mul_two_pi]

/-- Claim C8: from every reachable camera state, `turn(0, 360)` leaves the
facing vector unchanged (exactly, in the exact-arithmetic model): a full
360-degree yaw shift is an identity on the derived facing direction. -/
theorem turn_full_yaw_facing_invariant : ∀ c : Cam, c.Reachable →
    (c.turn 0 360).facing = c.facing := by
  intro c h
  obtain ⟨hlo, hhi⟩ := reachable_pitch c h
  have hpitch : (c.turn 0 360).pitch_deg = c.pitch_deg := by
    simp only [Cam.turn, add_zero]
    rw [max_eq_left hlo, min_eq_left hhi]
  have hyaw : (c.turn 0 360).yaw_deg = rustRem (c.yaw_deg + 360) 360 := rfl
  simp only [Cam.facing, hpitch, hyaw, sin_toRadians_rustRem, cos_toRadians_rustRem]

/-- Witness for C8: at the (reachable) initial camera, `turn(0, 360)` leaves
the facing vector unchanged. -/
theorem turn_full_yaw_facing_invariant_witness :
    (Cam.default.turn 0 360).facing = Cam.default.facing :=
  turn_full_yaw_facing_invariant Cam.default Cam.Reachable.init

/- ### The obstacle grid of `Stage::new` -/

/-- The nested loop of `Stage::new`: for `x in 0..10`, for `y in 0..10`,
push `vec3(x, 0, y)` whenever `p.length() > 0.0` (which skips only the
origin). -/
noncomputable def obstacles : List V3 :=
  (List.range 10).flatMap fun (x : ℕ) =>
    (List.range 10).filterMap fun (y : ℕ) =>
      let p : V3 := ((x : ℝ), 0, (y : ℝ))
      if 0 < length3 p then some p else none

lemma length3_grid_pos (x z : ℕ) :
    0 < length3 ((x : ℝ), (0 : ℝ), (z : ℝ)) ↔ ¬(x = 0 ∧ z = 0) := by
  rw [length3, Real.sqrt_pos, dot3]
  constructor
  · rintro h ⟨hx, hz⟩
    subst hx; subst hz
    norm_num at h
  · intro h
    rcases Nat.eq_zero_or_pos x with hx | hx
    · have hz : z ≠ 0 := fun hz => h ⟨hx, hz⟩
      have h1 : (1 : ℝ) ≤ (z : ℝ) := by
        exact_mod_cast Nat.one_le_iff_ne_zero.mpr hz
      subst hx
      push_cast
      nlinarith
    · have h1 : (1 : ℝ) ≤ (x : ℝ) := by exact_mod_cast hx
      nlinarith [mul_self_nonneg ((z : ℝ))]

lemma obstacles_eq :
    obstacles = (List.range 10).flatMap fun (x : ℕ) =>
      (List.range 10).filterMap fun (z : ℕ) =>
        if x = 0 ∧ z = 0 then none else some ((x : ℝ), (0 : ℝ), (z : ℝ)) := by
  unfold obstacles
  refine congrArg (List.flatMap (List.range 10)) (funext fun x => ?_)
  refine congrArg (fun f => List.filterMap f (List.range 10)) (funext fun z => ?_)
  by_cases h : x = 0 ∧ z = 0
  · have hnot : ¬ 0 < length3 ((x : ℝ), (0 : ℝ), (z : ℝ)) :=
      fun hl => (length3_grid_pos x z).mp hl h
    rw [if_neg hnot, if_pos h]
  · rw [if_pos ((length3_grid_pos x z).mpr h), if_neg h]

lemma obstacles_length : obstacles.length = 99 := by
  rw [obstacles_eq]
  decide

lemma obstacles_mem_iff (x z : ℕ) :
    ((x : ℝ), (0 : ℝ), (z : ℝ)) ∈ obstacles ↔
      x < 10 ∧ z < 10 ∧ ¬(x = 0 ∧ z = 0) := by
  rw [obstacles_eq]
  simp only [List.mem_flatMap, List.mem_filterMap, List.mem_range]
  constructor
  · rintro ⟨a, ha, b, hb, hab⟩
    by_cases h : a = 0 ∧ b = 0
    · rw [if_pos h] at hab; exact absurd hab (by simp)
    · rw [if_neg h] at hab
      have heq := Option.some.inj hab
      obtain ⟨h1, -, h3⟩ : (a : ℝ) = (x : ℝ) ∧ (0 : ℝ) = (0 : ℝ) ∧
          (b : ℝ) = (z : ℝ) := by simpa [Prod.ext_iff] using heq
      have hax : a = x := by exact_mod_cast h1
      have hbz : b = z := by exact_mod_cast h3
      subst hax; subst hbz
      exact ⟨ha, hb, h⟩
  · rintro ⟨hx, hz, hne⟩
    exact ⟨x, hx, z, hz, by rw [if_neg hne]⟩

lemma obstacles_shape : ∀ p ∈ obstacles, ∃ x z : ℕ,
    x < 10 ∧ z < 10 ∧ ¬(x = 0 ∧ z = 0) ∧ p = ((x : ℝ), (0 : ℝ), (z : ℝ)) := by
  rw [obstacles_eq]
  intro p hp
  simp only [List.mem_flatMap, List.mem_filterMap, List.mem_range] at hp
  obtain ⟨a, ha, b, hb, hab⟩ := hp
  by_cases h : a = 0 ∧ b = 0
  · rw [if_pos h] at hab; exact absurd hab (by simp)
  · rw [if_neg h] at hab
    exact ⟨a, b, ha, hb, h, (Option.some.inj hab).symm⟩

lemma origin_not_mem_obstacles : ((0 : ℝ), (0 : ℝ), (0 : ℝ)) ∉ obstacles := by
  intro h
  obtain ⟨x, z, -, -, hne, heq⟩ := obstacles_shape _ h
  obtain ⟨h1, -, h3⟩ : (0 : ℝ) = (x : ℝ) ∧ (0 : ℝ) = (0 : ℝ) ∧
      (0 : ℝ) = (z : ℝ) := by simpa [Prod.ext_iff] using heq
  have hx : x = 0 := by exact_mod_cast h1.symm
  have hz : z = 0 := by exact_mod_cast h3.symm
  exact hne ⟨hx, hz⟩

/- ### Matrices of the glam dependency -/

/-- A 4x4 matrix of reals, modelling `glam::Mat4`. -/
abbrev Mat4 := Matrix (Fin 4) (Fin 4) ℝ

/-- Modelled from the glam dependency (not part of this repository):
`Mat4::perspective_rh_gl(fov_y_radians, aspect, z_near, z_far)`, the
OpenGL-convention right-handed perspective matrix. -/
noncomputable def perspectiveRhGl (fovY aspect zNear zFar : ℝ) : Mat4 :=
  let invLength := 1 / (zNear - zFar)
  let f := 1 / Real.tan (0.5 * fovY)
  let a := f / aspect
  let b := (zNear + zFar) * invLength
  let c := 2 * zNear * zFar * invLength
  Matrix.of ![![a, 0, 0, 0], ![0, f, 0, 0], ![0, 0, b, c], ![0, 0, -1, 0]]

/-- Modelled from the glam dependency (not part of this repository):
`Mat4::look_at_rh(eye, center, up)`, the right-handed view matrix built
from the forward, side and up basis. -/
noncomputable def lookAtRh (eye center up : V3) : Mat4 :=
  let f := normalize3 (center - eye)
  let s := normalize3 (cross3 f up)
  let u := cross3 s f
  Matrix.of ![![s.1, s.2.1, s.2.2, -(dot3 s eye)],
              ![u.1, u.2.1, u.2.2, -(dot3 u eye)],
              ![-(f.1), -(f.2.1), -(f.2.2), dot3 f eye],
              ![0, 0, 0, 1]]

/- ### The stage -/

/-- The state of `Stage` that the event handlers read and write.  The GPU
objects (`pipeline`, `bindings`) are opaque handles owned by the graphics
context; what the handlers do to them is recorded as explicit effects. -/
structure Stage where
  cam : Cam
  pos : V3
  obstacles : List V3

/-- `Stage::new`: default camera, viewer at `Vec3::zero()`, the grid
obstacle list. -/
noncomputable def initStage : Stage :=
  { cam := Cam.default, pos := ((0 : ℝ), (0 : ℝ), (0 : ℝ)),
    obstacles := obstacles }

/-- The context calls a handler makes, in order. -/
inductive Effect where
  | setCursorGrab (grab : Bool)
  | uploadInstances (data : List V3)

/-- `EventHandler::update`: grabs the cursor and re-uploads the obstacle
list into the instance buffer; the stage state itself is untouched. -/
def Stage.update (s : Stage) : Stage × List Effect :=
  (s, [Effect.setCursorGrab true, Effect.uploadInstances s.obstacles])

/-- `EventHandler::mouse_delta_event`: `self.cam.turn(y * 0.1, -x * 0.1)`. -/
noncomputable def Stage.mouseDeltaEvent (s : Stage) (x y : ℝ) : Stage :=
  { s with cam := s.cam.turn (y * 0.1) ((-x) * 0.1) }

/-- The draw submission of one frame: the uniform uploaded and the
parameters of the one instanced draw call. -/
structure DrawCall where
  view_proj : Mat4
  base : ℤ
  elements : ℤ
  instances : ℤ

/-- `EventHandler::draw`: perspective from a 45-degree field of view, the
viewport aspect and the 0.01/50 clip planes; look-at from the viewer
position toward `pos + cam.facing()` with up `(0,1,0)`; the uniform is
`proj * view` and the draw covers 24 indices over all instances. -/
noncomputable def Stage.draw (s : Stage) (width height : ℝ) : Stage × DrawCall :=
  let proj := perspectiveRhGl (toRadians 45) (width / height) 0.01 50
  let view := lookAtRh s.pos (s.pos + s.cam.facing) ((0 : ℝ), (1 : ℝ), (0 : ℝ))
  (s, { view_proj := proj * view, base := 0, elements := 24,
        instances := (s.obstacles.length : ℤ) })

/- ### Claim theorems C1, C6, C7, C10 -/

lemma facing_default : Cam.default.facing = ((0 : ℝ), (0 : ℝ), (1 : ℝ)) := by
  simp [Cam.facing, Cam.default, toRadians]

/-- Claim C1: with no mouse input, the first draw's view-projection matrix
is exactly `perspective(45 degrees, width/height, 0.01, 50)` times
`look_at(eye = (0,0,0), target = (0,0,1), up = (0,1,0))`. -/
theorem stage_first_draw_view_proj : ∀ width height : ℝ,
    ((initStage.draw width height).2).view_proj =
      perspectiveRhGl (toRadians 45) (width / height) 0.01 50 *
        lookAtRh ((0 : ℝ), (0 : ℝ), (0 : ℝ)) ((0 : ℝ), (0 : ℝ), (1 : ℝ))
          ((0 : ℝ), (1 : ℝ), (0 : ℝ)) := by
  intro width height
  have htarget : ((0 : ℝ), (0 : ℝ), (0 : ℝ)) + Cam.default.facing =
      ((0 : ℝ), (0 : ℝ), (1 : ℝ)) := by
    rw [facing_default]
    simp [Prod.ext_iff]
  simp only [Stage.draw, initStage, htarget]

/-- Claim C6: the instance-position list built once at startup holds exactly
the 99 integer grid points `(x, 0, z)` with `x, z` in `[0, 10)` other than
the origin; the origin is not in it, and none of the handlers ever changes
it. -/
theorem obstacles_spec :
    obstacles.length = 99 ∧
    (∀ x z : ℕ, ((x : ℝ), (0 : ℝ), (z : ℝ)) ∈ obstacles ↔
      x < 10 ∧ z < 10 ∧ ¬(x = 0 ∧ z = 0)) ∧
    (∀ p ∈ obstacles, ∃ x z : ℕ,
      x < 10 ∧ z < 10 ∧ ¬(x = 0 ∧ z = 0) ∧ p = ((x : ℝ), (0 : ℝ), (z : ℝ))) ∧
    ((0 : ℝ), (0 : ℝ), (0 : ℝ)) ∉ obstacles ∧
    (∀ s : Stage, (s.update).1.obstacles = s.obstacles) ∧
    (∀ (s : Stage) (w h : ℝ), (s.draw w h).1.obstacles = s.obstacles) ∧
    (∀ (s : Stage) (dx dy : ℝ),
      (s.mouseDeltaEvent dx dy).obstacles = s.obstacles) :=
  ⟨obstacles_length, obstacles_mem_iff, obstacles_shape,
   origin_not_mem_obstacles, fun _ => rfl, fun _ _ _ => rfl, fun _ _ _ => rfl⟩

/-- Claim C7: the mouse-delta handler at `(dx, dy)` is exactly
`turn(dy * 0.1, (-dx) * 0.1)` on the camera, with every other stage field
untouched. -/
theorem mouse_delta_event_spec : ∀ (s : Stage) (dx dy : ℝ),
    s.mouseDeltaEvent dx dy =
      { s with cam := s.cam.turn (dy * 0.1) ((-dx) * 0.1) } :=
  fun _ _ _ => rfl

/-- Claim C10: `update` returns the stage unchanged and only grabs the
cursor and re-uploads the obstacle list; `draw` returns the stage
unchanged; the mouse-delta handler changes the camera by `turn` and leaves
the viewer position and the obstacle list alone. -/
theorem frame_handlers_effects :
    (∀ s : Stage, (s.update).1 = s ∧
      (s.update).2 = [Effect.setCursorGrab true,
        Effect.uploadInstances s.obstacles]) ∧
    (∀ (s : Stage) (w h : ℝ), (s.draw w h).1 = s) ∧
    (∀ (s : Stage) (dx dy : ℝ),
      (s.mouseDeltaEvent dx dy).pos = s.pos ∧
      (s.mouseDeltaEvent dx dy).obstacles = s.obstacles ∧
      (s.mouseDeltaEvent dx dy).cam = s.cam.turn (dy * 0.1) ((-dx) * 0.1)) :=
  ⟨fun _ => ⟨rfl, rfl⟩, fun _ _ _ => rfl, fun _ _ _ => ⟨rfl, rfl, rfl⟩⟩
